import Mathlib

/-!
Verification development for the discussion-app graph core: the orthogonal
connection pathfinder (src/lib/pathfinder.ts), the graph view-state store
operations (src/stores/discussionsStore.ts and its earlier localStorage
variant), and the canvas interaction handlers (GraphCanvas.tsx /
useCanvasEvents.ts).  Coordinates are embedded as rationals; the JavaScript
number operations used by this code (add, sub, mul, div, min, max, abs,
Math.sign, comparisons) are modelled exactly.
-/

/-- A 2D point, as in the pathfinder's Point interface. -/
structure Point where
  x : ℚ
  y : ℚ
deriving DecidableEq, Repr

/-- An axis-aligned rectangle, as in the pathfinder's Rect interface. -/
structure Rect where
  x : ℚ
  y : ℚ
  width : ℚ
  height : ℚ
deriving DecidableEq, Repr

/-- STUB_LENGTH = 30 (pathfinder config). -/
def STUB_LENGTH : ℚ := 30

/-- PADDING = 5 (pathfinder config). -/
def PADDING : ℚ := 5

/-- Math.sign. -/
def qsign (q : ℚ) : ℚ := if q < 0 then -1 else if 0 < q then 1 else 0

/-- lineIntersectsRect: the segment's bounding box overlaps the rectangle
inflated by PADDING (strict inequalities, exactly as in the source). -/
def lineIntersectsRect (p1 p2 : Point) (rect : Rect) : Bool :=
  let minX := min p1.x p2.x
  let maxX := max p1.x p2.x
  let minY := min p1.y p2.y
  let maxY := max p1.y p2.y
  decide (rect.x - PADDING < maxX ∧ rect.x + rect.width + PADDING > minX ∧
    rect.y - PADDING < maxY ∧ rect.y + rect.height + PADDING > minY)

/-- Does any consecutive segment of the given point list hit any obstacle? -/
def anySegHits (obstacles : List Rect) : List Point → Bool
  | a :: b :: rest =>
    obstacles.any (fun o => lineIntersectsRect a b o) || anySegHits obstacles (b :: rest)
  | _ => false

/-- doesPathIntersectObstacles: checks segments (path[i], path[i+1]) for
1 ≤ i ≤ path.length - 3 against every obstacle, i.e. all segments except
the first and the last; these connect the points path[1] .. path[len-2],
which is path.tail.dropLast. -/
def doesPathIntersectObstacles (path : List Point) (obstacles : List Rect) : Bool :=
  anySegHits obstacles path.tail.dropLast

/-- getPathLength: sum of L1 distances between consecutive points. -/
def getPathLength : List Point → ℚ
  | a :: b :: rest => |a.x - b.x| + |a.y - b.y| + getPathLength (b :: rest)
  | _ => 0

/-- The collinearity test of cleanupPath: the cross product of the relative
vectors from p1 is exactly zero. -/
def collinear (a b c : Point) : Prop :=
  (b.x - a.x) * (c.y - a.y) = (c.x - a.x) * (b.y - a.y)

instance (a b c : Point) : Decidable (collinear a b c) :=
  inferInstanceAs (Decidable (_ = _))

/-- The loop of cleanupPath: p1 is the last point already kept; an interior
point p2 is dropped exactly when it is collinear (in the cross-product sense)
with the last kept point and its successor; the final point is always kept. -/
def cleanupAux (p1 : Point) : List Point → List Point
  | [] => []
  | [p2] => [p2]
  | p2 :: p3 :: rest =>
    if collinear p1 p2 p3 then cleanupAux p1 (p3 :: rest)
    else p2 :: cleanupAux p2 (p3 :: rest)

/-- cleanupPath: returns paths of fewer than 3 points unchanged; otherwise
keeps the first point and runs the redundant-point removal loop. -/
def cleanupPath (path : List Point) : List Point :=
  match path with
  | p0 :: p1 :: p2 :: rest => p0 :: cleanupAux p0 (p1 :: p2 :: rest)
  | _ => path

/-- A graph node (src/types): only the fields the graph core reads are
modelled; content and type are opaque strings here. -/
structure GraphNode where
  id : String
  nodeType : String
  content : String
  x : ℚ
  y : ℚ
  width : ℚ
  height : ℚ
  isCollapsed : Bool
  discussionId : String
deriving DecidableEq, Repr

/-- Effective height: collapsed nodes use the fixed collapsed height cH
(COLLAPSED_HEIGHT lives in src/lib/constants.ts, whose text is not in the
sources; its numeric value is passed as the parameter cH throughout). -/
def effHeight (cH : ℚ) (n : GraphNode) : ℚ :=
  if n.isCollapsed then cH else n.height

/-- Node center, using the effective height. -/
def nodeCenter (cH : ℚ) (n : GraphNode) : Point :=
  ⟨n.x + n.width / 2, n.y + effHeight cH n / 2⟩

/-- The obstacle rectangle of a node, as built in findOrthogonalPath from
allNodes (effective height for collapsed nodes). -/
def nodeRect (cH : ℚ) (n : GraphNode) : Rect :=
  ⟨n.x, n.y, n.width, effHeight cH n⟩

/-- The four ports (top, bottom, left, right midpoints), in source order. -/
def nodePorts (cH : ℚ) (n : GraphNode) : List Point :=
  let c := nodeCenter cH n
  [⟨c.x, n.y⟩, ⟨c.x, n.y + effHeight cH n⟩, ⟨n.x, c.y⟩, ⟨n.x + n.width, c.y⟩]

/-- Stub point: STUB_LENGTH outward from the port, direction given by the
sign of the offset from the node center on each axis. -/
def stubOf (center p : Point) : Point :=
  ⟨p.x + qsign (p.x - center.x) * STUB_LENGTH, p.y + qsign (p.y - center.y) * STUB_LENGTH⟩

/-- The two single-bend candidates for one (source port, target port) pair,
in source order: corner (endStub.x, startStub.y) first, then
(startStub.x, endStub.y). -/
def candPair (sc ec sp ep : Point) : List (List Point) :=
  let ss := stubOf sc sp
  let es := stubOf ec ep
  [[sp, ss, ⟨es.x, ss.y⟩, es, ep], [sp, ss, ⟨ss.x, es.y⟩, es, ep]]

/-- All 32 candidates in enumeration order: source ports outer loop, target
ports inner loop, bend variant a before b. -/
def allCandidates (cH : ℚ) (startNode endNode : GraphNode) : List (List Point) :=
  (nodePorts cH startNode).flatMap fun sp =>
    (nodePorts cH endNode).flatMap fun ep =>
      candPair (nodeCenter cH startNode) (nodeCenter cH endNode) sp ep

/-- The candidate-selection loop of findOrthogonalPath: skip candidates that
intersect an obstacle; otherwise keep the candidate when its length strictly
improves on the best so far (none plays the role of the initial
bestPath = [] / shortestLength = Infinity pair). -/
def searchLoop (obstacles : List Rect) (best : Option (List Point × ℚ)) :
    List (List Point) → Option (List Point × ℚ)
  | [] => best
  | p :: rest =>
    if doesPathIntersectObstacles p obstacles then searchLoop obstacles best rest
    else
      match best with
      | none => searchLoop obstacles (some (p, getPathLength p)) rest
      | some (bp, bl) =>
        if getPathLength p < bl then searchLoop obstacles (some (p, getPathLength p)) rest
        else searchLoop obstacles (some (bp, bl)) rest

/-- findOrthogonalPath: brute-force search over the 32 candidates with all
node rectangles (source and target included) as obstacles; center-to-center
fallback when nothing survives; cleanupPath applied to the result. -/
def findOrthogonalPath (cH : ℚ) (startNode endNode : GraphNode)
    (allNodes : List GraphNode) : List Point :=
  let startCenter := nodeCenter cH startNode
  let endCenter := nodeCenter cH endNode
  let allNodeRects := allNodes.map (nodeRect cH)
  match searchLoop allNodeRects none (allCandidates cH startNode endNode) with
  | some (bestPath, _) => cleanupPath bestPath
  | none => cleanupPath [startCenter, ⟨startCenter.x, endCenter.y⟩, endCenter]

/-- Modelled from the spec: the variant of findOrthogonalPath described by
section 4.2 step 5 of the spec, in which the source and target node's own
rectangles are excluded as obstacles and only other nodes block the route.
The source instead passes every node rectangle; this definition exists to
compare the spec's words against the source behaviour. -/
def findOrthogonalPathSpecObstacles (cH : ℚ) (startNode endNode : GraphNode)
    (allNodes : List GraphNode) : List Point :=
  let startCenter := nodeCenter cH startNode
  let endCenter := nodeCenter cH endNode
  let obstacleRects :=
    (allNodes.filter fun n => n.id ≠ startNode.id ∧ n.id ≠ endNode.id).map (nodeRect cH)
  match searchLoop obstacleRects none (allCandidates cH startNode endNode) with
  | some (bestPath, _) => cleanupPath bestPath
  | none => cleanupPath [startCenter, ⟨startCenter.x, endCenter.y⟩, endCenter]

/-- A node connection (src/types). -/
structure NodeConnection where
  id : String
  fromNodeId : String
  toNodeId : String
  relationshipType : String
  discussionId : String
deriving DecidableEq, Repr

/-- The client-side graph view state (src/types GraphState). -/
structure GraphState where
  nodes : List GraphNode
  connections : List NodeConnection
  selectedNodeId : Option String
  isEditingNode : Option String
  scale : ℚ
  offset : Point
deriving DecidableEq, Repr

namespace DiscussionsStore

/-- The local-state effect of deleteNode in the current (Supabase-backed)
discussionsStore: removes the node, removes connections referencing it, and
resets selectedNodeId when it equals the deleted id.  Note: isEditingNode is
left untouched by this version.  The remote delete call is outside the
model. -/
def deleteNode (st : GraphState) (id : String) : GraphState :=
  { st with
    nodes := st.nodes.filter fun n => n.id ≠ id
    connections := st.connections.filter fun c => c.fromNodeId ≠ id ∧ c.toNodeId ≠ id
    selectedNodeId := if st.selectedNodeId = some id then none else st.selectedNodeId }

/-- The local-state effect of addConnection in the current discussionsStore
(success path): the mapped inserted row is appended to the connection list.
No check on the existence of the endpoint nodes is performed. -/
def addConnection (st : GraphState) (c : NodeConnection) : GraphState :=
  { st with connections := st.connections ++ [c] }

end DiscussionsStore

namespace LegacyStore

/-- deleteNode of the earlier localStorage-backed discussionsStore
(unnamed source part_000): same as the current version but also resets
isEditingNode when it equals the deleted id. -/
def deleteNode (st : GraphState) (id : String) : GraphState :=
  { st with
    nodes := st.nodes.filter fun n => n.id ≠ id
    connections := st.connections.filter fun c => c.fromNodeId ≠ id ∧ c.toNodeId ≠ id
    selectedNodeId := if st.selectedNodeId = some id then none else st.selectedNodeId
    isEditingNode := if st.isEditingNode = some id then none else st.isEditingNode }

/-- addConnection of the earlier localStorage-backed discussionsStore:
unconditional append, no endpoint-existence check. -/
def addConnection (st : GraphState) (c : NodeConnection) : GraphState :=
  { st with connections := st.connections ++ [c] }

end LegacyStore

/-- CANVAS_SETTINGS.minScale. -/
def minScale : ℚ := 1 / 10

/-- CANVAS_SETTINGS.maxScale. -/
def maxScale : ℚ := 3

/-- CANVAS_SETTINGS.scaleStep. -/
def scaleStep : ℚ := 1 / 10

/-- The view-transform part of the canvas state read by handleWheel. -/
structure ViewState where
  scale : ℚ
  offset : Point
deriving DecidableEq, Repr

/-- Screen-to-graph conversion, graph = (screen - offset) / scale; this is
also the mousePointTo computation inside handleWheel. -/
def toGraph (vs : ViewState) (p : Point) : Point :=
  ⟨(p.x - vs.offset.x) / vs.scale, (p.y - vs.offset.y) / vs.scale⟩

/-- handleWheel (GraphCanvas.tsx): step the scale by scaleStep against the
wheel direction, clamp to [minScale, maxScale], and recompute the offset so
the graph point under the pointer stays fixed. -/
def handleWheel (vs : ViewState) (pointer : Point) (deltaY : ℚ) : ViewState :=
  let oldScale := vs.scale
  let mousePointTo := toGraph vs pointer
  let direction : ℚ := if deltaY > 0 then -1 else 1
  let newScale := max minScale (min maxScale (oldScale + direction * scaleStep))
  ⟨newScale, ⟨pointer.x - mousePointTo.x * newScale, pointer.y - mousePointTo.y * newScale⟩⟩

/-- Fold a sequence of wheel events over the view state. -/
def applyWheelEvents (events : List (Point × ℚ)) (vs : ViewState) : ViewState :=
  events.foldl (fun s ev => handleWheel s ev.1 ev.2) vs

/-- The transient connection-gesture state of the canvas component. -/
structure CanvasCtrl where
  isConnecting : Bool
  connectionStart : Option String
  tempConnection : Option Point
deriving DecidableEq, Repr

/-- Store mutations a node click can trigger. -/
inductive CanvasAction where
  | addConn (fromNodeId toNodeId relationshipType discussionId : String)
  | selectNode (id : String)
deriving DecidableEq, Repr

/-- The non-connecting branch of handleNodeClick: select the node and, on
shift, enter connecting mode starting from it. -/
def nodeClickSelect (st : CanvasCtrl) (nodeId : String) (shiftKey : Bool) :
    CanvasCtrl × List CanvasAction :=
  (if shiftKey then { st with isConnecting := true, connectionStart := some nodeId } else st,
    [CanvasAction.selectNode nodeId])

/-- handleNodeClick (useCanvasEvents.ts): with a connection gesture in
progress, a recorded start node different from the clicked node, and a
current discussion, create the connection and reset the gesture; otherwise
select the clicked node (shift additionally starts a gesture from it). -/
def handleNodeClick (st : CanvasCtrl) (nodeId : String) (shiftKey : Bool)
    (discussionId : Option String) : CanvasCtrl × List CanvasAction :=
  match st.connectionStart, discussionId with
  | some cs, some d =>
    if st.isConnecting ∧ cs ≠ nodeId then
      (⟨false, none, none⟩, [CanvasAction.addConn cs nodeId "supports" d])
    else nodeClickSelect st nodeId shiftKey
  | _, _ => nodeClickSelect st nodeId shiftKey

/-- handleNodeClick (GraphCanvas.tsx variant): same gesture logic, but the
discussion id is not part of the guard; an absent discussion id becomes the
empty string. -/
def handleNodeClickGC (st : CanvasCtrl) (nodeId : String) (shiftKey : Bool)
    (discussionId : Option String) : CanvasCtrl × List CanvasAction :=
  match st.connectionStart with
  | some cs =>
    if st.isConnecting ∧ cs ≠ nodeId then
      (⟨false, none, none⟩, [CanvasAction.addConn cs nodeId "supports" (discussionId.getD "")])
    else nodeClickSelect st nodeId shiftKey
  | none => nodeClickSelect st nodeId shiftKey

/-- Two consecutive path points form an axis-aligned segment. -/
def Aligned (a b : Point) : Prop := a.x = b.x ∨ a.y = b.y

instance (a b : Point) : Decidable (Aligned a b) :=
  inferInstanceAs (Decidable (_ ∨ _))

/-- A point lies on the boundary of a rectangle: inside the closed rectangle
and on one of its four edge lines. -/
def onBoundary (r : Rect) (p : Point) : Prop :=
  (p.x = r.x ∨ p.x = r.x + r.width ∨ p.y = r.y ∨ p.y = r.y + r.height) ∧
    r.x ≤ p.x ∧ p.x ≤ r.x + r.width ∧ r.y ≤ p.y ∧ p.y ≤ r.y + r.height

instance (r : Rect) (p : Point) : Decidable (onBoundary r p) :=
  inferInstanceAs (Decidable (_ ∧ _))

/-- Scale within the configured zoom bounds. -/
def scaleInRange (s : ℚ) : Prop := minScale ≤ s ∧ s ≤ maxScale

instance (s : ℚ) : Decidable (scaleInRange s) :=
  inferInstanceAs (Decidable (_ ∧ _))

/-- Two nodes with identical geometry (position, size, collapse flag); ids
and text may differ. -/
def geomEq (n m : GraphNode) : Prop :=
  n.x = m.x ∧ n.y = m.y ∧ n.width = m.width ∧ n.height = m.height ∧
    n.isCollapsed = m.isCollapsed

/-- No three consecutive points of the list are collinear. -/
def triplesOK : List Point → Prop
  | a :: b :: c :: rest => ¬collinear a b c ∧ triplesOK (b :: c :: rest)
  | _ => True

/-- Concrete configuration: two 100 x 50 nodes stacked with a 10-unit gap;
the inflated rectangles close the corridor between them. -/
def cexStart : GraphNode := ⟨"s", "argument", "A", 0, 0, 100, 50, false, "d1"⟩

/-- The lower node of the stacked pair. -/
def cexEnd : GraphNode := ⟨"t", "argument", "B", 0, 60, 100, 50, false, "d1"⟩

/-- Concrete configuration: a small source node inside a giant obstacle. -/
def boxStart : GraphNode := ⟨"s", "argument", "A", 0, 0, 10, 10, false, "d1"⟩

/-- A small target node inside the giant obstacle. -/
def boxEnd : GraphNode := ⟨"t", "argument", "B", 40, 0, 10, 10, false, "d1"⟩

/-- A giant node covering both boxStart and boxEnd, so that every candidate
route collides. -/
def boxObstacle : GraphNode := ⟨"c", "argument", "C", -100, -100, 300, 300, false, "d1"⟩

/-- Concrete configuration: two 200 x 100 nodes far apart, nothing between
them; many candidates survive. -/
def farStart : GraphNode := ⟨"s", "argument", "A", 0, 0, 200, 100, false, "d1"⟩

/-- The right-hand node of the far-apart pair. -/
def farEnd : GraphNode := ⟨"t", "argument", "B", 500, 0, 200, 100, false, "d1"⟩

/-- A single node used by the store-state examples. -/
def sampleNode : GraphNode := ⟨"n1", "argument", "hello", 0, 0, 200, 100, false, "d1"⟩

/-- A graph state in which node n1 is currently open for editing. -/
def editingState : GraphState := ⟨[sampleNode], [], none, some "n1", 1, ⟨0, 0⟩⟩

/-- A graph state with no nodes at all. -/
def emptyState : GraphState := ⟨[], [], none, none, 1, ⟨0, 0⟩⟩

/-- A connection whose endpoints do not exist in emptyState. -/
def orphanConnection : NodeConnection := ⟨"c1", "a", "b", "supports", "d1"⟩

attribute [local semireducible] Rat.add Rat.mul Rat.sub Rat.inv

theorem cleanupAux_ne_nil (l : List Point) (a : Point) (h : l ≠ []) :
    cleanupAux a l ≠ [] := by
  induction l generalizing a with
  | nil => exact absurd rfl h
  | cons b t ih =>
    cases t with
    | nil => simp [cleanupAux]
    | cons c t' =>
      rw [cleanupAux]
      split
      · exact ih a (by simp)
      · simp

theorem cleanupAux_getLast? (l : List Point) (a : Point) :
    (cleanupAux a l).getLast? = l.getLast? := by
  induction l generalizing a with
  | nil => rfl
  | cons b t ih =>
    cases t with
    | nil => rfl
    | cons c t' =>
      rw [cleanupAux]
      split
      · rw [ih a, List.getLast?_cons_cons]
      · obtain ⟨x, xs, hx⟩ : ∃ x xs, cleanupAux b (c :: t') = x :: xs := by
          rcases h : cleanupAux b (c :: t') with _ | ⟨x, xs⟩
          · exact absurd h (cleanupAux_ne_nil _ b (by simp))
          · exact ⟨x, xs, rfl⟩
        rw [hx, List.getLast?_cons_cons, ← hx, ih b]
        exact List.getLast?_cons_cons.symm

theorem cleanupPath_head? (p : List Point) : (cleanupPath p).head? = p.head? := by
  match p with
  | [] => rfl
  | [a] => rfl
  | [a, b] => rfl
  | a :: b :: c :: rest => rfl

theorem cleanupPath_getLast? (p : List Point) :
    (cleanupPath p).getLast? = p.getLast? := by
  match p with
  | [] => rfl
  | [a] => rfl
  | [a, b] => rfl
  | a :: b :: c :: rest =>
    show (a :: cleanupAux a (b :: c :: rest)).getLast? = _
    obtain ⟨x, xs, hx⟩ : ∃ x xs, cleanupAux a (b :: c :: rest) = x :: xs := by
      rcases h : cleanupAux a (b :: c :: rest) with _ | ⟨x, xs⟩
      · exact absurd h (cleanupAux_ne_nil _ a (by simp))
      · exact ⟨x, xs, rfl⟩
    rw [hx, List.getLast?_cons_cons, ← hx, cleanupAux_getLast?]
    exact List.getLast?_cons_cons.symm

theorem cleanupPath_two_le_length (p : List Point) (h : 2 ≤ p.length) :
    2 ≤ (cleanupPath p).length := by
  match p with
  | [] => simp at h
  | [a] => simp at h
  | [a, b] => exact h
  | a :: b :: c :: rest =>
    show 2 ≤ (a :: cleanupAux a (b :: c :: rest)).length
    have hne := cleanupAux_ne_nil (b :: c :: rest) a (by simp)
    have : 1 ≤ (cleanupAux a (b :: c :: rest)).length := by
      rcases hx : cleanupAux a (b :: c :: rest) with _ | ⟨x, xs⟩
      · exact absurd hx hne
      · simp
    simp only [List.length_cons]
    omega

theorem aligned_of_collinear {a b c : Point} (hab : Aligned a b) (hbc : Aligned b c)
    (h : collinear a b c) : Aligned a c := by
  rcases hab with hx | hy
  · by_cases hy2 : a.y = b.y
    · have hab2 : a = b := by cases a; cases b; simp_all
      rw [hab2]; exact hbc
    · left
      have h0 : (c.x - a.x) * (b.y - a.y) = 0 := by
        have hbx : b.x - a.x = 0 := by rw [hx]; ring
        unfold collinear at h
        linear_combination (-1 : ℚ) * h + (c.y - a.y) * hbx
      rcases mul_eq_zero.mp h0 with h1 | h1
      · linarith [sub_eq_zero.mp h1]
      · exact absurd (sub_eq_zero.mp h1).symm hy2
  · by_cases hx2 : a.x = b.x
    · have hab2 : a = b := by cases a; cases b; simp_all
      rw [hab2]; exact hbc
    · right
      have h0 : (b.x - a.x) * (c.y - a.y) = 0 := by
        have hby : b.y - a.y = 0 := by rw [hy]; ring
        unfold collinear at h
        linear_combination h + (c.x - a.x) * hby
      rcases mul_eq_zero.mp h0 with h1 | h1
      · exact absurd (sub_eq_zero.mp h1).symm hx2
      · linarith [sub_eq_zero.mp h1]

theorem chain_cleanupAux (l : List Point) (a : Point)
    (h : List.Chain' Aligned (a :: l)) : List.Chain' Aligned (a :: cleanupAux a l) := by
  induction l generalizing a with
  | nil => simp [cleanupAux]
  | cons b t ih =>
    cases t with
    | nil => exact h
    | cons c t' =>
      rw [cleanupAux]
      split
      · rename_i hcol
        apply ih a
        rw [List.chain'_cons] at h
        obtain ⟨hab, h2⟩ := h
        rw [List.chain'_cons] at h2
        obtain ⟨hbc, h3⟩ := h2
        exact List.chain'_cons.mpr ⟨aligned_of_collinear hab hbc hcol, h3⟩
      · rw [List.chain'_cons] at h
        exact List.chain'_cons.mpr ⟨h.1, ih b h.2⟩

theorem collinear_extend {a k q r : Point} (hak : ¬collinear a k q)
    (hk : collinear k q r) (hne : r ≠ k) : ¬collinear a k r := by
  intro h
  apply hne
  have hc1 : (k.x - a.x) * (q.y - a.y) - (q.x - a.x) * (k.y - a.y) ≠ 0 := by
    intro h0
    exact hak (by unfold collinear; linarith)
  unfold collinear at h hk
  have hx : (r.x - k.x) * ((k.x - a.x) * (q.y - a.y) - (q.x - a.x) * (k.y - a.y)) = 0 := by
    linear_combination (q.x - k.x) * h - (k.x - a.x) * hk
  have hy : (r.y - k.y) * ((k.x - a.x) * (q.y - a.y) - (q.x - a.x) * (k.y - a.y)) = 0 := by
    linear_combination (q.y - k.y) * h - (k.y - a.y) * hk
  have hx0 : r.x - k.x = 0 := by
    rcases mul_eq_zero.mp hx with h1 | h1
    · exact h1
    · exact absurd h1 hc1
  have hy0 : r.y - k.y = 0 := by
    rcases mul_eq_zero.mp hy with h1 | h1
    · exact h1
    · exact absurd h1 hc1
  cases r; cases k
  simp only [Point.mk.injEq]
  constructor <;> [skip; skip] <;> simp_all <;> linarith

theorem cleanupAux_head_not_collinear (l : List Point) (a k : Point)
    (hne : ∀ q ∈ l, q ≠ k)
    (hhead : ∀ x, l.head? = some x → ¬collinear a k x) :
    ∀ y, (cleanupAux k l).head? = some y → ¬collinear a k y := by
  induction l generalizing k with
  | nil => intro y hy; simp [cleanupAux] at hy
  | cons b t ih =>
    cases t with
    | nil =>
      intro y hy
      simp only [cleanupAux, List.head?_cons, Option.some.injEq] at hy
      exact hy ▸ hhead b rfl
    | cons c t' =>
      rw [cleanupAux]
      split
      · rename_i hcol
        apply ih
        · intro q hq; exact hne q (List.mem_cons_of_mem b hq)
        · intro x hx
          simp only [List.head?_cons, Option.some.injEq] at hx
          subst hx
          exact collinear_extend (hhead b rfl) hcol (hne c (by simp))
      · intro y hy
        simp only [List.head?_cons, Option.some.injEq] at hy
        exact hy ▸ hhead b rfl

theorem triplesOK_cleanupAux (l : List Point) (a : Point) (hnd : l.Nodup)
    (hna : ∀ q ∈ l, q ≠ a) : triplesOK (a :: cleanupAux a l) := by
  induction l generalizing a with
  | nil => simp [cleanupAux, triplesOK]
  | cons b t ih =>
    cases t with
    | nil => simp [cleanupAux, triplesOK]
    | cons c t' =>
      rw [cleanupAux]
      split
      · rename_i hcol
        exact ih a (List.Nodup.of_cons hnd) (fun q hq => hna q (List.mem_cons_of_mem b hq))
      · rename_i hcol
        have hout : triplesOK (b :: cleanupAux b (c :: t')) :=
          ih b (List.Nodup.of_cons hnd)
            (fun q hq => by
              intro hqb
              exact (List.nodup_cons.mp hnd).1 (hqb ▸ hq))
        obtain ⟨x, xs, hx⟩ : ∃ x xs, cleanupAux b (c :: t') = x :: xs := by
          rcases h : cleanupAux b (c :: t') with _ | ⟨x, xs⟩
          · exact absurd h (cleanupAux_ne_nil _ b (by simp))
          · exact ⟨x, xs, rfl⟩
        rw [hx]
        refine ⟨?_, hx ▸ hout⟩
        exact cleanupAux_head_not_collinear (c :: t') a b
          (fun q hq => by
            intro hqb
            exact (List.nodup_cons.mp hnd).1 (hqb ▸ hq))
          (fun x' hx' => by
            simp only [List.head?_cons, Option.some.injEq] at hx'
            exact hx' ▸ hcol)
          x (by rw [hx]; rfl)

theorem cleanupAux_eq_of_triplesOK (l : List Point) (a : Point)
    (h : triplesOK (a :: l)) : cleanupAux a l = l := by
  induction l generalizing a with
  | nil => rfl
  | cons b t ih =>
    cases t with
    | nil => rfl
    | cons c t' =>
      rw [cleanupAux]
      obtain ⟨h1, h2⟩ := h
      rw [if_neg h1, ih b h2]

theorem lineIntersectsRect_iff (p1 p2 : Point) (r : Rect) :
    lineIntersectsRect p1 p2 r = true ↔
      r.x - PADDING < max p1.x p2.x ∧ r.x + r.width + PADDING > min p1.x p2.x ∧
        r.y - PADDING < max p1.y p2.y ∧ r.y + r.height + PADDING > min p1.y p2.y := by
  simp [lineIntersectsRect]

theorem collinear_resolve {p1 p2 p3 : Point} (a12 : Aligned p1 p2) (a23 : Aligned p2 p3)
    (hcol : collinear p1 p2 p3) :
    (p1.x = p2.x ∧ p2.x = p3.x) ∨ (p1.y = p2.y ∧ p2.y = p3.y) := by
  unfold collinear at hcol
  rcases a12 with h12 | h12 <;> rcases a23 with h23 | h23
  · exact Or.inl ⟨h12, h23⟩
  · have h0 : (p3.x - p1.x) * (p2.y - p1.y) = 0 := by
      have : p2.x - p1.x = 0 := by rw [h12]; ring
      linear_combination (-1 : ℚ) * hcol + (p3.y - p1.y) * this
    rcases mul_eq_zero.mp h0 with h1 | h1
    · exact Or.inl ⟨h12, by have := sub_eq_zero.mp h1; rw [← h12, this]⟩
    · exact Or.inr ⟨(sub_eq_zero.mp h1).symm, h23⟩
  · have h0 : (p2.x - p1.x) * (p3.y - p1.y) = 0 := by
      have : p2.y - p1.y = 0 := by rw [h12]; ring
      linear_combination hcol + (p3.x - p1.x) * this
    rcases mul_eq_zero.mp h0 with h1 | h1
    · exact Or.inl ⟨(sub_eq_zero.mp h1).symm, h23⟩
    · exact Or.inr ⟨h12, by have := sub_eq_zero.mp h1; rw [← h12, this]⟩
  · exact Or.inr ⟨h12, h23⟩

theorem merge_vertical {p1 p2 p3 : Point} {r : Rect}
    (hh : 0 < r.height + 2 * PADDING)
    (hx12 : p1.x = p2.x) (hx23 : p2.x = p3.x)
    (h12 : lineIntersectsRect p1 p2 r = false)
    (h23 : lineIntersectsRect p2 p3 r = false) :
    lineIntersectsRect p1 p3 r = false := by
  rw [Bool.eq_false_iff] at h12 h23 ⊢
  intro h13
  rw [Ne, Bool.not_eq_true, Bool.eq_false_iff] at h12 h23
  rw [lineIntersectsRect_iff] at h13
  obtain ⟨c1, c2, c3, c4⟩ := h13
  have hx31 : p3.x = p1.x := by rw [← hx23, ← hx12]
  have cx1 : r.x - PADDING < p1.x := by
    rcases lt_max_iff.mp c1 with h | h
    · exact h
    · rw [hx31] at h; exact h
  have cx2 : r.x + r.width + PADDING > p1.x := by
    rcases min_lt_iff.mp c2 with h | h
    · exact h
    · rw [hx31] at h; exact h
  have y12 : max p1.y p2.y ≤ r.y - PADDING ∨ r.y + r.height + PADDING ≤ min p1.y p2.y := by
    by_contra hcon
    push_neg at hcon
    apply h12
    rw [lineIntersectsRect_iff, ← hx12]
    exact ⟨by simpa using cx1, by simpa using cx2, hcon.1, hcon.2⟩
  have y23 : max p2.y p3.y ≤ r.y - PADDING ∨ r.y + r.height + PADDING ≤ min p2.y p3.y := by
    by_contra hcon
    push_neg at hcon
    apply h23
    rw [lineIntersectsRect_iff, ← hx23, ← hx12]
    exact ⟨by simpa using cx1, by simpa using cx2, hcon.1, hcon.2⟩
  have hy1 : r.y - PADDING < p1.y ∨ r.y - PADDING < p3.y := lt_max_iff.mp c3
  have hy2 : min p1.y p3.y < r.y + r.height + PADDING := c4
  rcases y12 with hA | hA <;> rcases y23 with hB | hB
  · obtain ⟨hA1, hA2⟩ := max_le_iff.mp hA
    obtain ⟨hB1, hB2⟩ := max_le_iff.mp hB
    rcases hy1 with h | h <;> linarith
  · obtain ⟨hA1, hA2⟩ := max_le_iff.mp hA
    obtain ⟨hB1, hB2⟩ := le_min_iff.mp hB
    linarith
  · obtain ⟨hA1, hA2⟩ := le_min_iff.mp hA
    obtain ⟨hB1, hB2⟩ := max_le_iff.mp hB
    linarith
  · obtain ⟨hA1, hA2⟩ := le_min_iff.mp hA
    obtain ⟨hB1, hB2⟩ := le_min_iff.mp hB
    rcases min_lt_iff.mp hy2 with h | h <;> linarith

theorem merge_horizontal {p1 p2 p3 : Point} {r : Rect}
    (hw : 0 < r.width + 2 * PADDING)
    (hy12 : p1.y = p2.y) (hy23 : p2.y = p3.y)
    (h12 : lineIntersectsRect p1 p2 r = false)
    (h23 : lineIntersectsRect p2 p3 r = false) :
    lineIntersectsRect p1 p3 r = false := by
  rw [Bool.eq_false_iff] at h12 h23 ⊢
  intro h13
  rw [Ne, Bool.not_eq_true, Bool.eq_false_iff] at h12 h23
  rw [lineIntersectsRect_iff] at h13
  obtain ⟨c1, c2, c3, c4⟩ := h13
  have hy31 : p3.y = p1.y := by rw [← hy23, ← hy12]
  have cy1 : r.y - PADDING < p1.y := by
    rcases lt_max_iff.mp c3 with h | h
    · exact h
    · rw [hy31] at h; exact h
  have cy2 : r.y + r.height + PADDING > p1.y := by
    rcases min_lt_iff.mp c4 with h | h
    · exact h
    · rw [hy31] at h; exact h
  have x12 : max p1.x p2.x ≤ r.x - PADDING ∨ r.x + r.width + PADDING ≤ min p1.x p2.x := by
    by_contra hcon
    push_neg at hcon
    apply h12
    rw [lineIntersectsRect_iff, ← hy12]
    exact ⟨hcon.1, hcon.2, by simpa using cy1, by simpa using cy2⟩
  have x23 : max p2.x p3.x ≤ r.x - PADDING ∨ r.x + r.width + PADDING ≤ min p2.x p3.x := by
    by_contra hcon
    push_neg at hcon
    apply h23
    rw [lineIntersectsRect_iff, ← hy23, ← hy12]
    exact ⟨hcon.1, hcon.2, by simpa using cy1, by simpa using cy2⟩
  have hx1 : r.x - PADDING < p1.x ∨ r.x - PADDING < p3.x := lt_max_iff.mp c1
  have hx2 : min p1.x p3.x < r.x + r.width + PADDING := c2
  rcases x12 with hA | hA <;> rcases x23 with hB | hB
  · obtain ⟨hA1, hA2⟩ := max_le_iff.mp hA
    obtain ⟨hB1, hB2⟩ := max_le_iff.mp hB
    rcases hx1 with h | h <;> linarith
  · obtain ⟨hA1, hA2⟩ := max_le_iff.mp hA
    obtain ⟨hB1, hB2⟩ := le_min_iff.mp hB
    linarith
  · obtain ⟨hA1, hA2⟩ := le_min_iff.mp hA
    obtain ⟨hB1, hB2⟩ := max_le_iff.mp hB
    linarith
  · obtain ⟨hA1, hA2⟩ := le_min_iff.mp hA
    obtain ⟨hB1, hB2⟩ := le_min_iff.mp hB
    rcases min_lt_iff.mp hx2 with h | h <;> linarith

theorem segment_merge {p1 p2 p3 : Point} {r : Rect}
    (hw : 0 < r.width + 2 * PADDING) (hh : 0 < r.height + 2 * PADDING)
    (a12 : Aligned p1 p2) (a23 : Aligned p2 p3) (hcol : collinear p1 p2 p3)
    (h12 : lineIntersectsRect p1 p2 r = false)
    (h23 : lineIntersectsRect p2 p3 r = false) :
    lineIntersectsRect p1 p3 r = false := by
  rcases collinear_resolve a12 a23 hcol with ⟨hx1, hx2⟩ | ⟨hy1, hy2⟩
  · exact merge_vertical hh hx1 hx2 h12 h23
  · exact merge_horizontal hw hy1 hy2 h12 h23

theorem anySegHits_subset {obs obs' : List Rect} (hsub : ∀ r ∈ obs', r ∈ obs) :
    ∀ l : List Point, anySegHits obs l = false → anySegHits obs' l = false := by
  intro l
  induction l with
  | nil => intro; rfl
  | cons a t ih =>
    cases t with
    | nil => intro; rfl
    | cons b t' =>
      intro h
      rw [anySegHits, Bool.or_eq_false_iff] at h ⊢
      refine ⟨?_, ih h.2⟩
      rw [List.any_eq_false] at h ⊢
      intro o ho
      exact h.1 o (hsub o ho)

theorem doesPathIntersectObstacles_subset {path : List Point} {obs obs' : List Rect}
    (hsub : ∀ r ∈ obs', r ∈ obs)
    (h : doesPathIntersectObstacles path obs = false) :
    doesPathIntersectObstacles path obs' = false :=
  anySegHits_subset hsub _ h

theorem cleanupPath_five_safe (p0 p1 p2 p3 p4 : Point) (obs : List Rect)
    (hwh : ∀ r ∈ obs, 0 < r.width + 2 * PADDING ∧ 0 < r.height + 2 * PADDING)
    (a12 : Aligned p1 p2) (a23 : Aligned p2 p3)
    (hsafe : doesPathIntersectObstacles [p0, p1, p2, p3, p4] obs = false) :
    doesPathIntersectObstacles (cleanupPath [p0, p1, p2, p3, p4]) obs = false := by
  have hsplit : (obs.any fun o => lineIntersectsRect p1 p2 o) = false ∧
      (obs.any fun o => lineIntersectsRect p2 p3 o) = false := by
    simpa [doesPathIntersectObstacles, anySegHits, Bool.or_eq_false_iff] using hsafe
  obtain ⟨h12, h23⟩ := hsplit
  show doesPathIntersectObstacles (p0 :: cleanupAux p0 [p1, p2, p3, p4]) obs = false
  by_cases hc1 : collinear p0 p1 p2
  · by_cases hc2 : collinear p0 p2 p3
    · by_cases hc3 : collinear p0 p3 p4
      · have hout : cleanupAux p0 [p1, p2, p3, p4] = [p4] := by
          simp [cleanupAux, hc1, hc2, hc3]
        rw [hout]
        rfl
      · have hout : cleanupAux p0 [p1, p2, p3, p4] = [p3, p4] := by
          simp [cleanupAux, hc1, hc2, hc3]
        rw [hout]
        rfl
    · by_cases hc3 : collinear p2 p3 p4
      · have hout : cleanupAux p0 [p1, p2, p3, p4] = [p2, p4] := by
          simp [cleanupAux, hc1, hc2, hc3]
        rw [hout]
        rfl
      · have hout : cleanupAux p0 [p1, p2, p3, p4] = [p2, p3, p4] := by
          simp [cleanupAux, hc1, hc2, hc3]
        rw [hout]
        simp [doesPathIntersectObstacles, anySegHits, h23]
  · by_cases hc2 : collinear p1 p2 p3
    · by_cases hc3 : collinear p1 p3 p4
      · have hout : cleanupAux p0 [p1, p2, p3, p4] = [p1, p4] := by
          simp [cleanupAux, hc1, hc2, hc3]
        rw [hout]
        rfl
      · have hout : cleanupAux p0 [p1, p2, p3, p4] = [p1, p3, p4] := by
          simp [cleanupAux, hc1, hc2, hc3]
        rw [hout]
        -- the merged segment (p1, p3) is safe by the merge lemma
        have h13 : (obs.any fun o => lineIntersectsRect p1 p3 o) = false := by
          rw [List.any_eq_false] at h12 h23 ⊢
          intro r hr
          have e12 : lineIntersectsRect p1 p2 r = false :=
            Bool.not_eq_true _ ▸ h12 r hr
          have e23 : lineIntersectsRect p2 p3 r = false :=
            Bool.not_eq_true _ ▸ h23 r hr
          have := segment_merge (hwh r hr).1 (hwh r hr).2 a12 a23 hc2 e12 e23
          simp [this]
        simp [doesPathIntersectObstacles, anySegHits, h13]
    · by_cases hc3 : collinear p2 p3 p4
      · have hout : cleanupAux p0 [p1, p2, p3, p4] = [p1, p2, p4] := by
          simp [cleanupAux, hc1, hc2, hc3]
        rw [hout]
        simp [doesPathIntersectObstacles, anySegHits, h12]
      · have hout : cleanupAux p0 [p1, p2, p3, p4] = [p1, p2, p3, p4] := by
          simp [cleanupAux, hc1, hc2, hc3]
        rw [hout]
        simp [doesPathIntersectObstacles, anySegHits, h12, h23]

theorem searchLoop_acc (obs : List Rect) (cands : List (List Point)) :
    ∀ bp : List Point,
      ∃ cp, searchLoop obs (some (bp, getPathLength bp)) cands = some (cp, getPathLength cp) ∧
        ((cp = bp ∧ ∀ q ∈ cands.filter (fun p => !doesPathIntersectObstacles p obs),
            getPathLength bp ≤ getPathLength q) ∨
          (∃ l1 l2,
            cands.filter (fun p => !doesPathIntersectObstacles p obs) = l1 ++ cp :: l2 ∧
            getPathLength cp < getPathLength bp ∧
            (∀ q ∈ l1, getPathLength cp < getPathLength q) ∧
            (∀ q ∈ l2, getPathLength cp ≤ getPathLength q))) := by
  induction cands with
  | nil =>
    intro bp
    exact ⟨bp, rfl, Or.inl ⟨rfl, by simp⟩⟩
  | cons c rest ih =>
    intro bp
    by_cases hhit : doesPathIntersectObstacles c obs = true
    · obtain ⟨cp, heq, hcase⟩ := ih bp
      refine ⟨cp, ?_, ?_⟩
      · rw [searchLoop, if_pos hhit]
        exact heq
      · simpa [List.filter_cons, hhit] using hcase
    · rw [Bool.not_eq_true] at hhit
      have hfil : (c :: rest).filter (fun p => !doesPathIntersectObstacles p obs) =
          c :: rest.filter (fun p => !doesPathIntersectObstacles p obs) := by
        simp [List.filter_cons, hhit]
      by_cases hlt : getPathLength c < getPathLength bp
      · obtain ⟨cp, heq, hcase⟩ := ih c
        refine ⟨cp, ?_, ?_⟩
        · rw [searchLoop, if_neg (by simp [hhit]), if_pos hlt]
          exact heq
        · rw [hfil]
          rcases hcase with ⟨hcp, hall⟩ | ⟨l1, l2, hsplit, hless, hl1, hl2⟩
          · subst hcp
            exact Or.inr ⟨[], rest.filter _, by simp, hlt, by simp, hall⟩
          · refine Or.inr ⟨c :: l1, l2, by rw [List.cons_append, hsplit], lt_trans hless hlt, ?_, hl2⟩
            intro q hq
            rcases List.mem_cons.mp hq with h | h
            · exact h ▸ hless
            · exact hl1 q h
      · obtain ⟨cp, heq, hcase⟩ := ih bp
        refine ⟨cp, ?_, ?_⟩
        · rw [searchLoop, if_neg (by simp [hhit]), if_neg hlt]
          exact heq
        · rw [hfil]
          rcases hcase with ⟨hcp, hall⟩ | ⟨l1, l2, hsplit, hless, hl1, hl2⟩
          · refine Or.inl ⟨hcp, ?_⟩
            intro q hq
            rcases List.mem_cons.mp hq with h | h
            · exact h ▸ not_lt.mp hlt
            · exact hall q h
          · refine Or.inr ⟨c :: l1, l2, by rw [List.cons_append, hsplit],
              hless, ?_, hl2⟩
            intro q hq
            rcases List.mem_cons.mp hq with h | h
            · exact h ▸ lt_of_lt_of_le hless (not_lt.mp hlt)
            · exact hl1 q h

theorem searchLoop_spec (obs : List Rect) (cands : List (List Point))
    (hne : cands.filter (fun p => !doesPathIntersectObstacles p obs) ≠ []) :
    ∃ cp l1 l2, searchLoop obs none cands = some (cp, getPathLength cp) ∧
      cands.filter (fun p => !doesPathIntersectObstacles p obs) = l1 ++ cp :: l2 ∧
      (∀ q ∈ l1, getPathLength cp < getPathLength q) ∧
      (∀ q ∈ l2, getPathLength cp ≤ getPathLength q) := by
  induction cands with
  | nil => simp at hne
  | cons c rest ih =>
    by_cases hhit : doesPathIntersectObstacles c obs = true
    · have hfil : (c :: rest).filter (fun p => !doesPathIntersectObstacles p obs) =
          rest.filter (fun p => !doesPathIntersectObstacles p obs) := by
        simp [List.filter_cons, hhit]
      rw [hfil] at hne ⊢
      obtain ⟨cp, l1, l2, heq, hsplit, hl1, hl2⟩ := ih hne
      refine ⟨cp, l1, l2, ?_, hsplit, hl1, hl2⟩
      rw [searchLoop, if_pos hhit]
      exact heq
    · rw [Bool.not_eq_true] at hhit
      have hfil : (c :: rest).filter (fun p => !doesPathIntersectObstacles p obs) =
          c :: rest.filter (fun p => !doesPathIntersectObstacles p obs) := by
        simp [List.filter_cons, hhit]
      obtain ⟨cp, heq, hcase⟩ := searchLoop_acc obs rest c
      have heq2 : searchLoop obs none (c :: rest) = some (cp, getPathLength cp) := by
        rw [searchLoop, if_neg (by simp [hhit])]
        exact heq
      rw [hfil]
      rcases hcase with ⟨hcp, hall⟩ | ⟨l1, l2, hsplit, hless, hl1, hl2⟩
      · subst hcp
        exact ⟨cp, [], rest.filter _, heq2, by simp, by simp, hall⟩
      · refine ⟨cp, c :: l1, l2, heq2, by rw [List.cons_append, hsplit], ?_, hl2⟩
        intro q hq
        rcases List.mem_cons.mp hq with h | h
        · exact h ▸ hless
        · exact hl1 q h

theorem searchLoop_eq_none (obs : List Rect) (cands : List (List Point))
    (hnil : cands.filter (fun p => !doesPathIntersectObstacles p obs) = []) :
    searchLoop obs none cands = none := by
  induction cands with
  | nil => rfl
  | cons c rest ih =>
    by_cases hhit : doesPathIntersectObstacles c obs = true
    · rw [searchLoop, if_pos hhit]
      apply ih
      simpa [List.filter_cons, hhit] using hnil
    · exfalso
      rw [Bool.not_eq_true] at hhit
      simp [List.filter_cons, hhit] at hnil

theorem searchLoop_none_iff (obs : List Rect) (cands : List (List Point)) :
    searchLoop obs none cands = none ↔
      cands.filter (fun p => !doesPathIntersectObstacles p obs) = [] := by
  constructor
  · intro h
    by_contra hne
    obtain ⟨cp, l1, l2, heq, -⟩ := searchLoop_spec obs cands hne
    rw [heq] at h
    exact Option.noConfusion h
  · exact searchLoop_eq_none obs cands

theorem mem_allCandidates {cH : ℚ} {s e : GraphNode} {p : List Point}
    (hp : p ∈ allCandidates cH s e) :
    ∃ sp ∈ nodePorts cH s, ∃ ep ∈ nodePorts cH e,
      p = [sp, stubOf (nodeCenter cH s) sp,
            ⟨(stubOf (nodeCenter cH e) ep).x, (stubOf (nodeCenter cH s) sp).y⟩,
            stubOf (nodeCenter cH e) ep, ep] ∨
      p = [sp, stubOf (nodeCenter cH s) sp,
            ⟨(stubOf (nodeCenter cH s) sp).x, (stubOf (nodeCenter cH e) ep).y⟩,
            stubOf (nodeCenter cH e) ep, ep] := by
  simp only [allCandidates, candPair, List.mem_flatMap] at hp
  obtain ⟨sp, hsp, ep, hep, hmem⟩ := hp
  refine ⟨sp, hsp, ep, hep, ?_⟩
  simpa using hmem

theorem port_aligned_center {cH : ℚ} {n : GraphNode} {p : Point}
    (hp : p ∈ nodePorts cH n) :
    p.x = (nodeCenter cH n).x ∨ p.y = (nodeCenter cH n).y := by
  simp only [nodePorts, List.mem_cons, List.not_mem_nil, or_false] at hp
  rcases hp with h | h | h | h <;> subst h
  · exact Or.inl rfl
  · exact Or.inl rfl
  · exact Or.inr rfl
  · exact Or.inr rfl

theorem aligned_stub {c p : Point} (h : p.x = c.x ∨ p.y = c.y) :
    Aligned p (stubOf c p) := by
  rcases h with h | h
  · left
    show p.x = p.x + qsign (p.x - c.x) * STUB_LENGTH
    rw [h, sub_self]
    simp [qsign]
  · right
    show p.y = p.y + qsign (p.y - c.y) * STUB_LENGTH
    rw [h, sub_self]
    simp [qsign]

theorem aligned_symm {a b : Point} (h : Aligned a b) : Aligned b a :=
  h.imp Eq.symm Eq.symm

theorem candidate_chain {cH : ℚ} {s e : GraphNode} {p : List Point}
    (hp : p ∈ allCandidates cH s e) : List.Chain' Aligned p := by
  obtain ⟨sp, hsp, ep, hep, hshape⟩ := mem_allCandidates hp
  have hs1 : Aligned sp (stubOf (nodeCenter cH s) sp) :=
    aligned_stub (port_aligned_center hsp)
  have he1 : Aligned (stubOf (nodeCenter cH e) ep) ep :=
    aligned_symm (aligned_stub (port_aligned_center hep))
  rcases hshape with h | h <;> subst h <;>
    refine List.chain'_cons.mpr ⟨hs1, List.chain'_cons.mpr ⟨?_, List.chain'_cons.mpr
      ⟨?_, List.chain'_cons.mpr ⟨he1, List.chain'_singleton _⟩⟩⟩⟩
  · exact Or.inr rfl
  · exact Or.inl rfl
  · exact Or.inl rfl
  · exact Or.inr rfl

theorem candidate_length {cH : ℚ} {s e : GraphNode} {p : List Point}
    (hp : p ∈ allCandidates cH s e) : p.length = 5 := by
  obtain ⟨sp, hsp, ep, hep, hshape⟩ := mem_allCandidates hp
  rcases hshape with h | h <;> subst h <;> rfl

theorem chain_cleanupPath {p : List Point} (h : List.Chain' Aligned p) :
    List.Chain' Aligned (cleanupPath p) := by
  match p with
  | [] => exact h
  | [a] => exact h
  | [a, b] => exact h
  | a :: b :: c :: rest =>
    show List.Chain' Aligned (a :: cleanupAux a (b :: c :: rest))
    exact chain_cleanupAux (b :: c :: rest) a h

theorem cleanupPath_three_no_interior (a b c : Point) (obs : List Rect) :
    doesPathIntersectObstacles (cleanupPath [a, b, c]) obs = false := by
  show doesPathIntersectObstacles (a :: cleanupAux a [b, c]) obs = false
  by_cases hcol : collinear a b c
  · have : cleanupAux a [b, c] = [c] := by simp [cleanupAux, hcol]
    rw [this]
    rfl
  · have : cleanupAux a [b, c] = [b, c] := by simp [cleanupAux, hcol]
    rw [this]
    rfl

theorem port_on_boundary {cH : ℚ} {n : GraphNode} {p : Point}
    (hp : p ∈ nodePorts cH n) (hw : 0 < n.width) (hh : 0 < effHeight cH n) :
    onBoundary (nodeRect cH n) p := by
  simp only [nodePorts, List.mem_cons, List.not_mem_nil, or_false] at hp
  rcases hp with h | h | h | h <;> subst h
  · refine ⟨Or.inr (Or.inr (Or.inl rfl)), ?_, ?_, ?_, ?_⟩
    · show n.x ≤ n.x + n.width / 2
      linarith
    · show n.x + n.width / 2 ≤ n.x + n.width
      linarith
    · exact le_refl n.y
    · show n.y ≤ n.y + effHeight cH n
      linarith
  · refine ⟨Or.inr (Or.inr (Or.inr rfl)), ?_, ?_, ?_, ?_⟩
    · show n.x ≤ n.x + n.width / 2
      linarith
    · show n.x + n.width / 2 ≤ n.x + n.width
      linarith
    · show n.y ≤ n.y + effHeight cH n
      linarith
    · exact le_refl _
  · refine ⟨Or.inl rfl, le_refl _, ?_, ?_, ?_⟩
    · show n.x ≤ n.x + n.width
      linarith
    · show n.y ≤ n.y + effHeight cH n / 2
      linarith
    · show n.y + effHeight cH n / 2 ≤ n.y + effHeight cH n
      linarith
  · refine ⟨Or.inr (Or.inl rfl), ?_, le_refl _, ?_, ?_⟩
    · show n.x ≤ n.x + n.width
      linarith
    · show n.y ≤ n.y + effHeight cH n / 2
      linarith
    · show n.y + effHeight cH n / 2 ≤ n.y + effHeight cH n
      linarith

theorem center_not_on_boundary {cH : ℚ} {n : GraphNode}
    (hw : 0 < n.width) (hh : 0 < effHeight cH n) :
    ¬ onBoundary (nodeRect cH n) (nodeCenter cH n) := by
  intro h
  obtain ⟨hedge, -⟩ := h
  rcases hedge with h | h | h | h
  · have h2 : n.x + n.width / 2 = n.x := h
    linarith
  · have h2 : n.x + n.width / 2 = n.x + n.width := h
    linarith
  · have h2 : n.y + effHeight cH n / 2 = n.y := h
    linarith
  · have h2 : n.y + effHeight cH n / 2 = n.y + effHeight cH n := h
    linarith

theorem findOrthogonalPath_eq_some {cH : ℚ} {s e : GraphNode} {nodes : List GraphNode}
    {bp : List Point} {bl : ℚ}
    (h : searchLoop (nodes.map (nodeRect cH)) none (allCandidates cH s e) = some (bp, bl)) :
    findOrthogonalPath cH s e nodes = cleanupPath bp := by
  simp only [findOrthogonalPath]
  rw [h]

theorem findOrthogonalPath_eq_fallback {cH : ℚ} {s e : GraphNode} {nodes : List GraphNode}
    (h : searchLoop (nodes.map (nodeRect cH)) none (allCandidates cH s e) = none) :
    findOrthogonalPath cH s e nodes =
      cleanupPath [nodeCenter cH s,
        ⟨(nodeCenter cH s).x, (nodeCenter cH e).y⟩, nodeCenter cH e] := by
  simp only [findOrthogonalPath]
  rw [h]

theorem searchLoop_some_mem {obs : List Rect} {cands : List (List Point)}
    {bp : List Point} {bl : ℚ}
    (h : searchLoop obs none cands = some (bp, bl)) :
    bp ∈ cands ∧ doesPathIntersectObstacles bp obs = false := by
  have hne : cands.filter (fun p => !doesPathIntersectObstacles p obs) ≠ [] := by
    intro hnl
    rw [searchLoop_eq_none _ _ hnl] at h
    exact Option.noConfusion h
  obtain ⟨cp, l1, l2, heq, hsplit, -, -⟩ := searchLoop_spec _ _ hne
  rw [heq] at h
  have hcp : cp = bp := congrArg Prod.fst (Option.some.inj h)
  subst hcp
  have hmem : cp ∈ cands.filter (fun p => !doesPathIntersectObstacles p obs) := by
    rw [hsplit]
    exact List.mem_append_right _ (List.mem_cons_self _ _)
  refine ⟨List.mem_of_mem_filter hmem, ?_⟩
  have := List.of_mem_filter hmem
  simpa using this

theorem effHeight_geom (cH : ℚ) {n m : GraphNode} (h : geomEq n m) :
    effHeight cH n = effHeight cH m := by
  obtain ⟨-, -, -, hh, hc⟩ := h
  simp [effHeight, hh, hc]

theorem nodeCenter_geom (cH : ℚ) {n m : GraphNode} (h : geomEq n m) :
    nodeCenter cH n = nodeCenter cH m := by
  have he := effHeight_geom cH h
  obtain ⟨hx, hy, hw, -, -⟩ := h
  simp [nodeCenter, hx, hy, hw, he]

theorem nodeRect_geom (cH : ℚ) {n m : GraphNode} (h : geomEq n m) :
    nodeRect cH n = nodeRect cH m := by
  have he := effHeight_geom cH h
  obtain ⟨hx, hy, hw, -, -⟩ := h
  simp [nodeRect, hx, hy, hw, he]

theorem nodePorts_geom (cH : ℚ) {n m : GraphNode} (h : geomEq n m) :
    nodePorts cH n = nodePorts cH m := by
  have he := effHeight_geom cH h
  have hc := nodeCenter_geom cH h
  obtain ⟨hx, hy, hw, -, -⟩ := h
  simp [nodePorts, hx, hy, hw, he, hc]

theorem mapRects_geom (cH : ℚ) {nodes nodes2 : List GraphNode}
    (h : List.Forall₂ geomEq nodes nodes2) :
    nodes.map (nodeRect cH) = nodes2.map (nodeRect cH) := by
  induction h with
  | nil => rfl
  | cons hab hrest ih =>
    simp only [List.map_cons]
    rw [nodeRect_geom cH hab, ih]

theorem allCandidates_geom (cH : ℚ) {s s2 e e2 : GraphNode}
    (hs : geomEq s s2) (he : geomEq e e2) :
    allCandidates cH s e = allCandidates cH s2 e2 := by
  unfold allCandidates
  rw [nodePorts_geom cH hs, nodePorts_geom cH he,
    nodeCenter_geom cH hs, nodeCenter_geom cH he]

theorem findOrthogonalPath_geom_congr (cH : ℚ) {s s2 e e2 : GraphNode}
    {nodes nodes2 : List GraphNode}
    (hs : geomEq s s2) (he : geomEq e e2) (hn : List.Forall₂ geomEq nodes nodes2) :
    findOrthogonalPath cH s e nodes = findOrthogonalPath cH s2 e2 nodes2 := by
  simp only [findOrthogonalPath]
  rw [mapRects_geom cH hn, allCandidates_geom cH hs he,
    nodeCenter_geom cH hs, nodeCenter_geom cH he]

theorem cleanupPath_idem (p : List Point) (h : p.Nodup) :
    cleanupPath (cleanupPath p) = cleanupPath p := by
  match p with
  | [] => rfl
  | [a] => rfl
  | [a, b] => rfl
  | p0 :: p1 :: p2 :: rest =>
    obtain ⟨hp0, htail⟩ := List.nodup_cons.mp h
    have htri : triplesOK (p0 :: cleanupAux p0 (p1 :: p2 :: rest)) :=
      triplesOK_cleanupAux _ p0 htail (fun q hq hqe => hp0 (hqe ▸ hq))
    show cleanupPath (p0 :: cleanupAux p0 (p1 :: p2 :: rest)) =
      p0 :: cleanupAux p0 (p1 :: p2 :: rest)
    rcases hout : cleanupAux p0 (p1 :: p2 :: rest) with _ | ⟨x, xs⟩
    · exact absurd hout (cleanupAux_ne_nil _ p0 (by simp))
    · rcases xs with _ | ⟨y, ys⟩
      · rfl
      · rw [hout] at htri
        show p0 :: cleanupAux p0 (x :: y :: ys) = p0 :: x :: y :: ys
        rw [cleanupAux_eq_of_triplesOK _ p0 htri]

theorem handleWheel_scaleInRange (vs : ViewState) (ptr : Point) (d : ℚ) :
    scaleInRange (handleWheel vs ptr d).scale := by
  constructor
  · exact le_max_left _ _
  · apply max_le
    · norm_num [minScale, maxScale]
    · exact min_le_left _ _

theorem applyWheel_scaleInRange (l : List (Point × ℚ)) :
    ∀ vs : ViewState, scaleInRange vs.scale →
      scaleInRange (applyWheelEvents l vs).scale := by
  induction l with
  | nil => exact fun vs h => h
  | cons ev t ih =>
    intro vs h
    show scaleInRange (applyWheelEvents t (handleWheel vs ev.1 ev.2)).scale
    exact ih _ (handleWheel_scaleInRange vs ev.1 ev.2)

theorem toGraph_zoom (s ns : ℚ) (off ptr : Point) (hs : s ≠ 0) (hns : ns ≠ 0) :
    toGraph ⟨ns, ⟨ptr.x - (toGraph ⟨s, off⟩ ptr).x * ns,
        ptr.y - (toGraph ⟨s, off⟩ ptr).y * ns⟩⟩ ptr = toGraph ⟨s, off⟩ ptr := by
  simp only [toGraph]
  rw [Point.mk.injEq]
  constructor <;> field_simp <;> ring

theorem toGraph_handleWheel (vs : ViewState) (ptr : Point) (d : ℚ)
    (h : scaleInRange vs.scale) :
    toGraph vs ptr = toGraph (handleWheel vs ptr d) ptr := by
  have hs : vs.scale ≠ 0 := by
    intro h0
    have h1 := h.1
    rw [h0] at h1
    norm_num [minScale] at h1
  have hns : (handleWheel vs ptr d).scale ≠ 0 := by
    intro h0
    have h1 := (handleWheel_scaleInRange vs ptr d).1
    rw [h0] at h1
    norm_num [minScale] at h1
  exact (toGraph_zoom vs.scale (handleWheel vs ptr d).scale vs.offset ptr hs hns).symm

/-- C1 (amended): candidate filtering treats every node of the node set —
including the source and the target — as an obstacle.  For nodes of
nonnegative width and effective height, whenever some candidate's interior
segments avoid every third-party padding-inflated rectangle, the path
returned by findOrthogonalPath has interior segments that intersect no
third-party node rectangle inflated by the padding. -/
theorem C1_third_party_obstacle_avoidance (cH : ℚ) (s e : GraphNode)
    (nodes : List GraphNode)
    (hdims : ∀ n ∈ nodes, 0 ≤ n.width ∧ 0 ≤ effHeight cH n)
    (hex : ∃ p ∈ allCandidates cH s e,
      doesPathIntersectObstacles p
        ((nodes.filter fun n => n.id ≠ s.id ∧ n.id ≠ e.id).map (nodeRect cH)) = false) :
    doesPathIntersectObstacles (findOrthogonalPath cH s e nodes)
      ((nodes.filter fun n => n.id ≠ s.id ∧ n.id ≠ e.id).map (nodeRect cH)) = false := by
  clear hex
  have hsub : ∀ r ∈ (nodes.filter fun n => n.id ≠ s.id ∧ n.id ≠ e.id).map (nodeRect cH),
      r ∈ nodes.map (nodeRect cH) := by
    intro r hr
    rw [List.mem_map] at hr ⊢
    obtain ⟨n, hn, hrn⟩ := hr
    exact ⟨n, List.mem_of_mem_filter hn, hrn⟩
  have hwh : ∀ r ∈ (nodes.filter fun n => n.id ≠ s.id ∧ n.id ≠ e.id).map (nodeRect cH),
      0 < r.width + 2 * PADDING ∧ 0 < r.height + 2 * PADDING := by
    intro r hr
    rw [List.mem_map] at hr
    obtain ⟨n, hn, hrn⟩ := hr
    obtain ⟨hw, hh⟩ := hdims n (List.mem_of_mem_filter hn)
    have hP : (PADDING : ℚ) = 5 := rfl
    subst hrn
    constructor
    · show 0 < n.width + 2 * PADDING
      rw [hP]; linarith
    · show 0 < effHeight cH n + 2 * PADDING
      rw [hP]; linarith
  rcases hsl : searchLoop (nodes.map (nodeRect cH)) none (allCandidates cH s e)
    with _ | ⟨bp, bl⟩
  · rw [findOrthogonalPath_eq_fallback hsl]
    exact cleanupPath_three_no_interior _ _ _ _
  · obtain ⟨hbpc, hbpsafe⟩ := searchLoop_some_mem hsl
    have hsafe3 := doesPathIntersectObstacles_subset hsub hbpsafe
    rw [findOrthogonalPath_eq_some hsl]
    obtain ⟨sp, hsp, ep, hep, hshape⟩ := mem_allCandidates hbpc
    rcases hshape with hbp | hbp <;> rw [hbp] at hsafe3 ⊢
    · exact cleanupPath_five_safe _ _ _ _ _ _ hwh (Or.inr rfl) (Or.inl rfl) hsafe3
    · exact cleanupPath_five_safe _ _ _ _ _ _ hwh (Or.inl rfl) (Or.inr rfl) hsafe3

/-- C1 counterexample: on two stacked nodes the source passes every node
rectangle (source and target included) to the obstacle filter, so the result
differs from the spec-described variant that excludes the source and target
rectangles from the obstacle set. -/
theorem C1_counterexample :
    findOrthogonalPath 60 cexStart cexEnd [cexStart, cexEnd] ≠
      findOrthogonalPathSpecObstacles 60 cexStart cexEnd [cexStart, cexEnd] := by
  decide

/-- C1 witness: two far-apart nodes, no third party; the hypotheses of the
amended claim hold and the conclusion is obtained from the theorem. -/
theorem C1_witness :
    doesPathIntersectObstacles (findOrthogonalPath 60 farStart farEnd [farStart, farEnd])
      (([farStart, farEnd].filter fun n =>
        n.id ≠ farStart.id ∧ n.id ≠ farEnd.id).map (nodeRect 60)) = false :=
  C1_third_party_obstacle_avoidance 60 farStart farEnd [farStart, farEnd]
    (by decide) (by decide)

/-- C2 (confirmed): findOrthogonalPath is total (the embedding is a total
function, so it never throws) and always returns at least 2 points; when
every one of the 32 candidates collides, it returns the cleaned-up
three-point fallback from the source center through the corner
(sourceCenter.x, targetCenter.y) to the target center, which undergoes no
collision checking. -/
theorem C2_total_with_fallback (cH : ℚ) (s e : GraphNode) (nodes : List GraphNode) :
    2 ≤ (findOrthogonalPath cH s e nodes).length ∧
      ((∀ p ∈ allCandidates cH s e,
          doesPathIntersectObstacles p (nodes.map (nodeRect cH)) = true) →
        findOrthogonalPath cH s e nodes =
          cleanupPath [nodeCenter cH s,
            ⟨(nodeCenter cH s).x, (nodeCenter cH e).y⟩, nodeCenter cH e]) := by
  constructor
  · rcases hsl : searchLoop (nodes.map (nodeRect cH)) none (allCandidates cH s e)
      with _ | ⟨bp, bl⟩
    · rw [findOrthogonalPath_eq_fallback hsl]
      exact cleanupPath_two_le_length _ (by simp)
    · obtain ⟨hbpc, -⟩ := searchLoop_some_mem hsl
      rw [findOrthogonalPath_eq_some hsl]
      apply cleanupPath_two_le_length
      rw [candidate_length hbpc]
      norm_num
  · intro hall
    have hnil : (allCandidates cH s e).filter
        (fun p => !doesPathIntersectObstacles p (nodes.map (nodeRect cH))) = [] := by
      rw [List.filter_eq_nil]
      intro p hp
      simp [hall p hp]
    exact findOrthogonalPath_eq_fallback (searchLoop_eq_none _ _ hnil)

/-- C2 witness: with a giant node covering everything, every candidate
collides and the fallback equation holds. -/
theorem C2_witness :
    findOrthogonalPath 60 boxStart boxEnd [boxStart, boxEnd, boxObstacle] =
      cleanupPath [nodeCenter 60 boxStart,
        ⟨(nodeCenter 60 boxStart).x, (nodeCenter 60 boxEnd).y⟩, nodeCenter 60 boxEnd] :=
  (C2_total_with_fallback 60 boxStart boxEnd [boxStart, boxEnd, boxObstacle]).2 (by decide)

/-- C3 (amended): for non-degenerate distinct nodes, when some candidate
survives the filter the returned path starts on the source boundary
rectangle and ends on the target boundary rectangle (effective heights);
when no candidate survives, the fallback starts at the source center and
ends at the target center, which lie strictly inside the rectangles and not
on their boundaries. -/
theorem C3_endpoints (cH : ℚ) (s e : GraphNode) (nodes : List GraphNode)
    (hsw : 0 < s.width) (hsh : 0 < effHeight cH s)
    (hew : 0 < e.width) (heh : 0 < effHeight cH e) (hid : s.id ≠ e.id) :
    ((allCandidates cH s e).filter
        (fun p => !doesPathIntersectObstacles p (nodes.map (nodeRect cH))) ≠ [] →
      ∃ sp ep, (findOrthogonalPath cH s e nodes).head? = some sp ∧
        (findOrthogonalPath cH s e nodes).getLast? = some ep ∧
        onBoundary (nodeRect cH s) sp ∧ onBoundary (nodeRect cH e) ep) ∧
    ((allCandidates cH s e).filter
        (fun p => !doesPathIntersectObstacles p (nodes.map (nodeRect cH))) = [] →
      (findOrthogonalPath cH s e nodes).head? = some (nodeCenter cH s) ∧
        (findOrthogonalPath cH s e nodes).getLast? = some (nodeCenter cH e) ∧
        ¬ onBoundary (nodeRect cH s) (nodeCenter cH s) ∧
        ¬ onBoundary (nodeRect cH e) (nodeCenter cH e)) := by
  constructor
  · intro hne
    obtain ⟨cp, l1, l2, heq, hsplit, -, -⟩ := searchLoop_spec _ _ hne
    obtain ⟨hcpc, -⟩ := searchLoop_some_mem heq
    have hres := findOrthogonalPath_eq_some heq
    obtain ⟨sp, hsp, ep, hep, hshape⟩ := mem_allCandidates hcpc
    refine ⟨sp, ep, ?_, ?_, port_on_boundary hsp hsw hsh, port_on_boundary hep hew heh⟩
    · rw [hres, cleanupPath_head?]
      rcases hshape with h | h <;> rw [h] <;> rfl
    · rw [hres, cleanupPath_getLast?]
      rcases hshape with h | h <;> rw [h] <;> rfl
  · intro hnil
    have hres := findOrthogonalPath_eq_fallback (searchLoop_eq_none _ _ hnil)
    refine ⟨?_, ?_, center_not_on_boundary hsw hsh, center_not_on_boundary hew heh⟩
    · rw [hres, cleanupPath_head?]
      rfl
    · rw [hres, cleanupPath_getLast?]
      rfl

/-- C3 counterexample: a boxed-in configuration of non-degenerate distinct
nodes in which every candidate collides; the returned path starts at the
source center, which does not lie on the source boundary — refuting the
claim that the fallback case also starts on the boundary. -/
theorem C3_counterexample :
    0 < boxStart.width ∧ 0 < effHeight 60 boxStart ∧
      0 < boxEnd.width ∧ 0 < effHeight 60 boxEnd ∧ boxStart.id ≠ boxEnd.id ∧
      (findOrthogonalPath 60 boxStart boxEnd [boxStart, boxEnd, boxObstacle]).head? =
        some (nodeCenter 60 boxStart) ∧
      ¬ onBoundary (nodeRect 60 boxStart) (nodeCenter 60 boxStart) := by
  refine ⟨by decide, by decide, by decide, by decide, by decide, by decide, by decide⟩

/-- C3 witness: far-apart nodes with surviving candidates; the boundary
conclusion of the amended claim follows from the theorem. -/
theorem C3_witness :
    ∃ sp ep, (findOrthogonalPath 60 farStart farEnd [farStart, farEnd]).head? = some sp ∧
      (findOrthogonalPath 60 farStart farEnd [farStart, farEnd]).getLast? = some ep ∧
      onBoundary (nodeRect 60 farStart) sp ∧ onBoundary (nodeRect 60 farEnd) ep :=
  (C3_endpoints 60 farStart farEnd [farStart, farEnd]
    (by decide) (by decide) (by decide) (by decide) (by decide)).1 (by decide)

/-- C4 (confirmed): when at least one candidate survives, the selected
pre-simplification candidate is a surviving candidate whose Manhattan length
is minimal among all surviving candidates, and it is the first minimal one
in enumeration order (every earlier survivor is strictly longer); the
returned path is its cleanup, and the function depends only on node
geometry, hence is deterministic on identical geometry. -/
theorem C4_minimal_first_selection (cH : ℚ) (s e : GraphNode) (nodes : List GraphNode)
    (hne : (allCandidates cH s e).filter
      (fun p => !doesPathIntersectObstacles p (nodes.map (nodeRect cH))) ≠ []) :
    ∃ bp l1 l2,
      searchLoop (nodes.map (nodeRect cH)) none (allCandidates cH s e) =
        some (bp, getPathLength bp) ∧
      (allCandidates cH s e).filter
        (fun p => !doesPathIntersectObstacles p (nodes.map (nodeRect cH))) =
        l1 ++ bp :: l2 ∧
      (∀ q ∈ l1, getPathLength bp < getPathLength q) ∧
      (∀ q ∈ l2, getPathLength bp ≤ getPathLength q) ∧
      findOrthogonalPath cH s e nodes = cleanupPath bp ∧
      (∀ s2 e2 nodes2, geomEq s s2 → geomEq e e2 →
        List.Forall₂ geomEq nodes nodes2 →
        findOrthogonalPath cH s2 e2 nodes2 = findOrthogonalPath cH s e nodes) := by
  obtain ⟨cp, l1, l2, heq, hsplit, hl1, hl2⟩ := searchLoop_spec _ _ hne
  exact ⟨cp, l1, l2, heq, hsplit, hl1, hl2, findOrthogonalPath_eq_some heq,
    fun s2 e2 nodes2 hs he hn => (findOrthogonalPath_geom_congr cH hs he hn).symm⟩

/-- C4 witness: far-apart nodes with surviving candidates. -/
theorem C4_witness :
    ∃ bp l1 l2,
      searchLoop ([farStart, farEnd].map (nodeRect 60)) none
        (allCandidates 60 farStart farEnd) = some (bp, getPathLength bp) ∧
      (allCandidates 60 farStart farEnd).filter
        (fun p => !doesPathIntersectObstacles p ([farStart, farEnd].map (nodeRect 60))) =
        l1 ++ bp :: l2 ∧
      (∀ q ∈ l1, getPathLength bp < getPathLength q) ∧
      (∀ q ∈ l2, getPathLength bp ≤ getPathLength q) ∧
      findOrthogonalPath 60 farStart farEnd [farStart, farEnd] = cleanupPath bp ∧
      (∀ s2 e2 nodes2, geomEq farStart s2 → geomEq farEnd e2 →
        List.Forall₂ geomEq [farStart, farEnd] nodes2 →
        findOrthogonalPath 60 s2 e2 nodes2 =
          findOrthogonalPath 60 farStart farEnd [farStart, farEnd]) :=
  C4_minimal_first_selection 60 farStart farEnd [farStart, farEnd] (by decide)

/-- C5 (confirmed): for nodes of positive width and positive effective
height, every pair of consecutive points of the returned path shares an x or
a y coordinate. -/
theorem C5_axis_aligned (cH : ℚ) (s e : GraphNode) (nodes : List GraphNode)
    (hsw : 0 < s.width) (hsh : 0 < effHeight cH s)
    (hew : 0 < e.width) (heh : 0 < effHeight cH e) :
    List.Chain' Aligned (findOrthogonalPath cH s e nodes) := by
  rcases hsl : searchLoop (nodes.map (nodeRect cH)) none (allCandidates cH s e)
    with _ | ⟨bp, bl⟩
  · rw [findOrthogonalPath_eq_fallback hsl]
    apply chain_cleanupPath
    exact List.chain'_cons.mpr ⟨Or.inl rfl,
      List.chain'_cons.mpr ⟨Or.inr rfl, List.chain'_singleton _⟩⟩
  · obtain ⟨hbpc, -⟩ := searchLoop_some_mem hsl
    rw [findOrthogonalPath_eq_some hsl]
    exact chain_cleanupPath (candidate_chain hbpc)

set_option maxHeartbeats 1000000 in
/-- C5 witness. -/
theorem C5_witness :
    List.Chain' Aligned (findOrthogonalPath 60 farStart farEnd [farStart, farEnd]) :=
  C5_axis_aligned 60 farStart farEnd [farStart, farEnd]
    (by decide) (by decide) (by decide) (by decide)

/-- C6 (code bug): in the current discussionsStore, deleteNode removes the
node and its connections and clears the selected id, but leaves
isEditingNode pointing at the deleted node, so the editing id can dangle.
The earlier store version (and the spec) clear it.  Evaluation at the
failing input: node n1 is being edited, deleteNode n1 leaves
isEditingNode = n1 while the node set becomes empty. -/
theorem C6_editing_id_dangles :
    (DiscussionsStore.deleteNode editingState "n1").nodes = [] ∧
      (DiscussionsStore.deleteNode editingState "n1").isEditingNode = some "n1" ∧
      (LegacyStore.deleteNode editingState "n1").isEditingNode = none := by
  decide

/-- Supporting fact: the legacy deleteNode satisfies the full claim — it
removes the node, removes every connection referencing it, and clears both
the selected and the editing id when they match. -/
theorem legacy_deleteNode_cascades (st : GraphState) (id : String) :
    (∀ n ∈ (LegacyStore.deleteNode st id).nodes, n.id ≠ id) ∧
      (∀ c ∈ (LegacyStore.deleteNode st id).connections,
        c.fromNodeId ≠ id ∧ c.toNodeId ≠ id) ∧
      (LegacyStore.deleteNode st id).selectedNodeId ≠ some id ∧
      (LegacyStore.deleteNode st id).isEditingNode ≠ some id := by
  refine ⟨?_, ?_, ?_, ?_⟩
  · intro n hn
    have := List.of_mem_filter hn
    simpa using this
  · intro c hc
    have := List.of_mem_filter hc
    simpa using this
  · show (if st.selectedNodeId = some id then none else st.selectedNodeId) ≠ some id
    split
    · simp
    · assumption
  · show (if st.isEditingNode = some id then none else st.isEditingNode) ≠ some id
    split
    · simp
    · assumption

/-- C7 (amended): addConnection performs no endpoint-existence check; in
both store versions the connection is appended to the connection list
unconditionally, and the node set is untouched — even when the endpoint
ids do not exist. -/
theorem C7_addConnection_unconditional (st : GraphState) (c : NodeConnection) :
    (DiscussionsStore.addConnection st c).connections = st.connections ++ [c] ∧
      (DiscussionsStore.addConnection st c).nodes = st.nodes ∧
      (LegacyStore.addConnection st c).connections = st.connections ++ [c] :=
  ⟨rfl, rfl, rfl⟩

/-- C7 counterexample: on a state with no nodes at all, addConnection with a
connection whose endpoints do not exist changes the connection set — it is
not a silent no-op. -/
theorem C7_counterexample :
    (∀ n ∈ emptyState.nodes, n.id ≠ orphanConnection.fromNodeId) ∧
      (DiscussionsStore.addConnection emptyState orphanConnection).connections ≠
        emptyState.connections := by
  decide

/-- C8 (amended): cleanupPath is idempotent on every list of pairwise
distinct points (a list that revisits a point can lose one more point on a
second pass); it always preserves the first and the last point. -/
theorem C8_cleanup_idempotent_nodup :
    (∀ p : List Point, p.Nodup → cleanupPath (cleanupPath p) = cleanupPath p) ∧
      (∀ p : List Point, (cleanupPath p).head? = p.head?) ∧
      (∀ p : List Point, (cleanupPath p).getLast? = p.getLast?) :=
  ⟨cleanupPath_idem, cleanupPath_head?, cleanupPath_getLast?⟩

/-- C8 counterexample: a path that returns to an earlier point; the first
cleanup pass leaves a duplicated final point, the second pass removes one
more point, so cleanup of cleanup differs from cleanup. -/
theorem C8_counterexample :
    cleanupPath (cleanupPath [(⟨0, 0⟩ : Point), ⟨2, 0⟩, ⟨2, 3⟩, ⟨2, 0⟩]) ≠
      cleanupPath [(⟨0, 0⟩ : Point), ⟨2, 0⟩, ⟨2, 3⟩, ⟨2, 0⟩] := by
  decide

/-- C8 witness: a duplicate-free path on which idempotence holds. -/
theorem C8_witness :
    ([(⟨0, 0⟩ : Point), ⟨1, 0⟩, ⟨2, 5⟩] : List Point).Nodup ∧
      cleanupPath (cleanupPath [(⟨0, 0⟩ : Point), ⟨1, 0⟩, ⟨2, 5⟩]) =
        cleanupPath [(⟨0, 0⟩ : Point), ⟨1, 0⟩, ⟨2, 5⟩] :=
  ⟨by decide, C8_cleanup_idempotent_nodup.1 _ (by decide)⟩

/-- C9 (confirmed): starting from a scale within [minScale, maxScale],
every state reached by a sequence of wheel events has its scale within
[minScale, maxScale], and each wheel step leaves the graph-space point
under the pointer unchanged (exactly, in rational arithmetic). -/
theorem C9_zoom_clamped_pointer_fixed (events : List (Point × ℚ)) (init : ViewState)
    (h : scaleInRange init.scale) :
    (∀ n : ℕ, scaleInRange (applyWheelEvents (events.take n) init).scale) ∧
      (∀ (vs : ViewState) (ptr : Point) (d : ℚ), scaleInRange vs.scale →
        scaleInRange (handleWheel vs ptr d).scale ∧
          toGraph vs ptr = toGraph (handleWheel vs ptr d) ptr) :=
  ⟨fun n => applyWheel_scaleInRange (events.take n) init h,
    fun vs ptr d hv =>
      ⟨handleWheel_scaleInRange vs ptr d, toGraph_handleWheel vs ptr d hv⟩⟩

/-- C9 witness. -/
theorem C9_witness :
    (∀ n : ℕ, scaleInRange
      (applyWheelEvents ([(⟨100, 50⟩, 3), (⟨10, 10⟩, -2)].take n) ⟨1, ⟨0, 0⟩⟩).scale) ∧
      (∀ (vs : ViewState) (ptr : Point) (d : ℚ), scaleInRange vs.scale →
        scaleInRange (handleWheel vs ptr d).scale ∧
          toGraph vs ptr = toGraph (handleWheel vs ptr d) ptr) :=
  C9_zoom_clamped_pointer_fixed [(⟨100, 50⟩, 3), (⟨10, 10⟩, -2)] ⟨1, ⟨0, 0⟩⟩ (by decide)

theorem handleNodeClick_cases (st : CanvasCtrl) (nodeId : String) (shiftKey : Bool)
    (did : Option String) :
    handleNodeClick st nodeId shiftKey did = nodeClickSelect st nodeId shiftKey ∨
      (∃ cs d, st.connectionStart = some cs ∧ did = some d ∧ cs ≠ nodeId ∧
        handleNodeClick st nodeId shiftKey did =
          (⟨false, none, none⟩, [CanvasAction.addConn cs nodeId "supports" d])) := by
  rcases hcs : st.connectionStart with _ | cs
  · left
    simp [handleNodeClick, hcs]
  · rcases hdid : did with _ | d
    · left
      simp [handleNodeClick, hcs, hdid]
    · by_cases hcond : st.isConnecting ∧ cs ≠ nodeId
      · right
        exact ⟨cs, d, rfl, rfl, hcond.2, by simp [handleNodeClick, hcs, hdid, if_pos hcond]⟩
      · left
        simp [handleNodeClick, hcs, hdid, if_neg hcond]

theorem handleNodeClickGC_cases (st : CanvasCtrl) (nodeId : String) (shiftKey : Bool)
    (did : Option String) :
    handleNodeClickGC st nodeId shiftKey did = nodeClickSelect st nodeId shiftKey ∨
      (∃ cs, st.connectionStart = some cs ∧ cs ≠ nodeId ∧
        handleNodeClickGC st nodeId shiftKey did =
          (⟨false, none, none⟩,
            [CanvasAction.addConn cs nodeId "supports" (did.getD "")])) := by
  rcases hcs : st.connectionStart with _ | cs
  · left
    simp [handleNodeClickGC, hcs]
  · by_cases hcond : st.isConnecting ∧ cs ≠ nodeId
    · right
      exact ⟨cs, rfl, hcond.2, by simp [handleNodeClickGC, hcs, if_pos hcond]⟩
    · left
      simp [handleNodeClickGC, hcs, if_neg hcond]

/-- C10 (confirmed): a node click never creates a self-referencing
connection — any addConnection emitted by either node-click handler has
distinct endpoints; and clicking the recorded connection-start node itself
selects it without emitting addConnection, with shift restarting the
gesture from it. -/
theorem C10_no_self_connection (st : CanvasCtrl) (nodeId : String) (shiftKey : Bool)
    (did : Option String) :
    (∀ f t r d, CanvasAction.addConn f t r d ∈ (handleNodeClick st nodeId shiftKey did).2 →
      f ≠ t) ∧
      (∀ f t r d, CanvasAction.addConn f t r d ∈ (handleNodeClickGC st nodeId shiftKey did).2 →
        f ≠ t) ∧
      (st.connectionStart = some nodeId →
        CanvasAction.selectNode nodeId ∈ (handleNodeClick st nodeId shiftKey did).2 ∧
          (∀ f t r d, CanvasAction.addConn f t r d ∉ (handleNodeClick st nodeId shiftKey did).2) ∧
          (shiftKey = true → (handleNodeClick st nodeId shiftKey did).1.isConnecting = true ∧
            (handleNodeClick st nodeId shiftKey did).1.connectionStart = some nodeId) ∧
          CanvasAction.selectNode nodeId ∈ (handleNodeClickGC st nodeId shiftKey did).2 ∧
          (∀ f t r d, CanvasAction.addConn f t r d ∉ (handleNodeClickGC st nodeId shiftKey did).2) ∧
          (shiftKey = true → (handleNodeClickGC st nodeId shiftKey did).1.isConnecting = true ∧
            (handleNodeClickGC st nodeId shiftKey did).1.connectionStart = some nodeId)) := by
  have h1 := handleNodeClick_cases st nodeId shiftKey did
  have h2 := handleNodeClickGC_cases st nodeId shiftKey did
  refine ⟨?_, ?_, ?_⟩
  · intro f t r d2 hmem
    rcases h1 with h | ⟨cs, d, hcs, hdid, hne, h⟩
    · rw [h] at hmem
      simp [nodeClickSelect] at hmem
    · rw [h] at hmem
      simp only [List.mem_singleton, CanvasAction.addConn.injEq] at hmem
      obtain ⟨hf, ht, -, -⟩ := hmem
      rw [hf, ht]
      exact hne
  · intro f t r d2 hmem
    rcases h2 with h | ⟨cs, hcs, hne, h⟩
    · rw [h] at hmem
      simp [nodeClickSelect] at hmem
    · rw [h] at hmem
      simp only [List.mem_singleton, CanvasAction.addConn.injEq] at hmem
      obtain ⟨hf, ht, -, -⟩ := hmem
      rw [hf, ht]
      exact hne
  · intro hstart
    have hsel : handleNodeClick st nodeId shiftKey did = nodeClickSelect st nodeId shiftKey := by
      rcases h1 with h | ⟨cs, d, hcs, hdid, hne, h⟩
      · exact h
      · rw [hstart] at hcs
        exact absurd (Option.some.inj hcs).symm hne
    have hselGC : handleNodeClickGC st nodeId shiftKey did =
        nodeClickSelect st nodeId shiftKey := by
      rcases h2 with h | ⟨cs, hcs, hne, h⟩
      · exact h
      · rw [hstart] at hcs
        exact absurd (Option.some.inj hcs).symm hne
    rw [hsel, hselGC]
    refine ⟨by simp [nodeClickSelect], ?_, ?_, by simp [nodeClickSelect], ?_, ?_⟩
    · intro f t r d2 hmem
      simp [nodeClickSelect] at hmem
    · intro hshift
      subst hshift
      exact ⟨rfl, rfl⟩
    · intro f t r d2 hmem
      simp [nodeClickSelect] at hmem
    · intro hshift
      subst hshift
      exact ⟨rfl, rfl⟩

/-- C10 witness: connecting from node a, a click on node a itself selects
it and restarts the gesture without creating a connection. -/
theorem C10_witness :
    CanvasAction.selectNode "a" ∈
      (handleNodeClick ⟨true, some "a", none⟩ "a" true (some "d1")).2 ∧
      (∀ f t r d, CanvasAction.addConn f t r d ∉
        (handleNodeClick ⟨true, some "a", none⟩ "a" true (some "d1")).2) :=
  ⟨((C10_no_self_connection ⟨true, some "a", none⟩ "a" true (some "d1")).2.2 rfl).1,
    ((C10_no_self_connection ⟨true, some "a", none⟩ "a" true (some "d1")).2.2 rfl).2.1⟩
